import Mathlib

/-!
Verification development for the insider-trading fetch pipeline
(`scripts/fetch_data.py`): a linear batch job that fetches insider
transactions per symbol, filters and normalizes them, sorts and
deduplicates the combined list, aggregates summary statistics, and
writes JSON artifacts.

Python strings are modelled as Lean `String`/`List Char`, Python numbers
as `Int`/`ℚ` (exact arithmetic), fallible parsing as `Option`, and the
effectful `main`/`api_call` as pure functions returning an event trace.
-/

/-- One decimal digit character, as produced by Python `str` of a number. -/
def digitChar (n : ℕ) : Char :=
  match n with
  | 0 => '0'
  | 1 => '1'
  | 2 => '2'
  | 3 => '3'
  | 4 => '4'
  | 5 => '5'
  | 6 => '6'
  | 7 => '7'
  | 8 => '8'
  | _ => '9'

/-- Decimal digits of a natural number, structurally recursive on a fuel
bound so that it evaluates by kernel reduction. -/
def natReprAux : ℕ → ℕ → List Char
  | 0, _ => []
  | fuel + 1, n =>
    if n < 10 then [digitChar n]
    else natReprAux fuel (n / 10) ++ [digitChar (n % 10)]

/-- Decimal representation of a natural number, as Python `str(n)`. -/
def natRepr (n : ℕ) : List Char := natReprAux (n + 1) n

/-- Decimal representation of an integer, as Python `str(i)`:
an optional leading minus sign followed by digits. -/
def intRepr (i : Int) : List Char :=
  if i < 0 then '-' :: natRepr i.natAbs else natRepr i.toNat

/-- Numeric value of a digit string (the inverse of `natRepr` on digits). -/
def digitsToNat (l : List Char) : ℕ :=
  l.foldl (fun a c => 10 * a + (c.toNat - 48)) 0

/-- Python `a or b` for an optional string `a`: `b` when `a` is absent or
empty (falsy), otherwise `a`. -/
def orElseStr (a : Option String) (b : String) : String :=
  match a with
  | some s => if s = "" then b else s
  | none => b

/-- Python `str.upper`, restricted to the ASCII range used here. -/
def upperStr (s : String) : String := s.map Char.toUpper

/-- Python string `<=` (lexicographic by code point) on character lists. -/
def lexLe : List Char → List Char → Bool
  | [], _ => true
  | _ :: _, [] => false
  | a :: as, b :: bs => if a < b then true else if b < a then false else lexLe as bs

/-- Gregorian leap-year test, as in `datetime`. -/
def isLeap (y : ℕ) : Bool := y % 4 = 0 && (y % 100 != 0 || y % 400 = 0)

/-- Days in a month of a given year, as validated by `datetime`. -/
def daysInMonth (y m : ℕ) : ℕ :=
  match m with
  | 1 => 31
  | 2 => if isLeap y then 29 else 28
  | 3 => 31
  | 4 => 30
  | 5 => 31
  | 6 => 30
  | 7 => 31
  | 8 => 31
  | 9 => 30
  | 10 => 31
  | 11 => 30
  | 12 => 31
  | _ => 0

/-- Day number of a calendar date (days since the Unix epoch), modelling
the time line on which `datetime` values are compared and shifted by
`timedelta(days=180)`. Uses the standard civil-calendar conversion. -/
def dateToDays (ymd : ℕ × ℕ × ℕ) : Int :=
  let y := ymd.1
  let m := ymd.2.1
  let d := ymd.2.2
  let y2 := if m ≤ 2 then y - 1 else y
  let era := y2 / 400
  let yoe := y2 % 400
  let mp := if 2 < m then m - 3 else m + 9
  let doy := (153 * mp + 2) / 5 + d - 1
  let doe := yoe * 365 + yoe / 4 - yoe / 100 + doy
  ((era * 146097 + doe : ℕ) : Int) - 719468

/-- `datetime.strptime(s, "%Y-%m-%d")`: a 4-digit year, 1–2 digit month
1..12, 1–2 digit day valid for the month, separated by `-`, consuming the
whole string; year 0 is rejected (`datetime.MINYEAR = 1`). Returns the
(year, month, day) triple or `none` on `ValueError`. -/
def parseDateChars (l : List Char) : Option (ℕ × ℕ × ℕ) :=
  let y := l.takeWhile (fun c => c ≠ '-')
  match l.dropWhile (fun c => c ≠ '-') with
  | '-' :: r1 =>
    let m := r1.takeWhile (fun c => c ≠ '-')
    match r1.dropWhile (fun c => c ≠ '-') with
    | '-' :: r2 =>
      let d := r2.takeWhile (fun c => c ≠ '-')
      if r2.dropWhile (fun c => c ≠ '-') = [] then
        if y.length = 4 ∧ y.all Char.isDigit ∧
            1 ≤ m.length ∧ m.length ≤ 2 ∧ m.all Char.isDigit ∧
            1 ≤ d.length ∧ d.length ≤ 2 ∧ d.all Char.isDigit then
          if 1 ≤ digitsToNat y ∧ 1 ≤ digitsToNat m ∧ digitsToNat m ≤ 12 ∧
              1 ≤ digitsToNat d ∧
              digitsToNat d ≤ daysInMonth (digitsToNat y) (digitsToNat m) then
            some (digitsToNat y, digitsToNat m, digitsToNat d)
          else none
        else none
      else none
    | _ => none
  | _ => none

/-- A raw provider record, with the fields `fetch_insider_transactions`
reads from each element of the response's `data` list; `none` models an
absent field. -/
structure RawTx where
  transactionCode : Option String
  transactionDate : Option String
  filingDate : Option String
  name : Option String
  change : Option Int
  transactionPrice : Option ℚ
  share : Option Int
deriving DecidableEq

/-- A normalized transaction record, as appended to `filtered` by
`fetch_insider_transactions`. -/
structure Tx where
  sym : String
  name : String
  code : String
  change : Int
  price : ℚ
  share : Int
  txDate : String
  fileDate : String
deriving DecidableEq

/-- Dollar value of a transaction: `abs(tx["change"] * tx["price"])`. -/
def txVal (tx : Tx) : ℚ := |(tx.change : ℚ) * tx.price|

/-- The per-record filter and normalization of
`fetch_insider_transactions`: keep only codes P/S (upper-cased), require
the effective date (transaction date, falling back to filing date) to
parse and to be no older than the cutoff, require a present nonzero
share-change, then build the normalized record with defaults for the
optional fields. -/
def pass_filter (cutoff : ℚ) (sym : String) (tx : RawTx) : Option Tx :=
  if upperStr (orElseStr tx.transactionCode "") = "P" ∨
      upperStr (orElseStr tx.transactionCode "") = "S" then
    match parseDateChars (orElseStr tx.transactionDate (orElseStr tx.filingDate "")).data with
    | none => none
    | some d =>
      if (dateToDays d : ℚ) < cutoff then none
      else
        match tx.change with
        | none => none
        | some c =>
          if c = 0 then none
          else some {
            sym := sym
            name := tx.name.getD "Unknown"
            code := upperStr (orElseStr tx.transactionCode "")
            change := c
            price := tx.transactionPrice.getD 0
            share := tx.share.getD 0
            txDate := orElseStr tx.transactionDate (orElseStr tx.filingDate "")
            fileDate := tx.filingDate.getD "" }
  else none

/-- The filtered, normalized record list for one symbol's raw data. -/
def filter_transactions (cutoff : ℚ) (sym : String) (raws : List RawTx) : List Tx :=
  raws.filterMap (pass_filter cutoff sym)

/-- Sample raw record used by the C1 witness. -/
def sampleRaw : RawTx :=
  { transactionCode := some "p", transactionDate := some "2024-09-01",
    filingDate := none, name := none, change := some 100,
    transactionPrice := none, share := none }

/-- Normalized record produced from `sampleRaw`. -/
def sampleTx : Tx :=
  { sym := "AAPL", name := "Unknown", code := "P", change := 100, price := 0,
    share := 0, txDate := "2024-09-01", fileDate := "" }

/-- Reference time used by the C1 witness: the day number of 2024-09-01. -/
def sampleT : ℚ := ((dateToDays (2024, 9, 1) : Int) : ℚ)

/-- Stable insertion used to model Python's stable `list.sort`: `a` is
placed before the first element `b` with `le a b`. -/
def insertS {α : Type} (le : α → α → Bool) (a : α) : List α → List α
  | [] => [a]
  | b :: l => if le a b then a :: b :: l else b :: insertS le a l

/-- Stable sort (insertion sort) modelling Python's stable `list.sort`
with comparison `le`; ties keep their original relative order. -/
def sortS {α : Type} (le : α → α → Bool) : List α → List α
  | [] => []
  | a :: l => insertS le a (sortS le l)

/-- `all_tx.sort(key=lambda x: x["txDate"], reverse=True)`: stable sort,
descending by the transaction-date string. -/
def sort_tx_desc (l : List Tx) : List Tx :=
  sortS (fun a b => lexLe b.txDate.data a.txDate.data) l

/-- The dedup identity key `f"{name}-{txDate}-{change}-{sym}"` as the
concatenated character list of the Python f-string. -/
def keyOf (tx : Tx) : List Char :=
  tx.name.data ++ '-' :: (tx.txDate.data ++ '-' :: (intRepr tx.change ++ '-' :: tx.sym.data))

/-- The identity-key tuple (name, transaction date, change, symbol). -/
def tupleOf (tx : Tx) : String × String × Int × String :=
  (tx.name, tx.txDate, tx.change, tx.sym)

/-- The dedup loop of `fetch_insider_transactions`, carrying the `seen`
set of already-kept keys. -/
def dedupeGo (seen : List (List Char)) : List Tx → List Tx
  | [] => []
  | tx :: rest =>
    if keyOf tx ∈ seen then dedupeGo seen rest
    else tx :: dedupeGo (keyOf tx :: seen) rest

/-- The deduplication step: keep the first occurrence of each key. -/
def dedupe (l : List Tx) : List Tx := dedupeGo [] l

/-- Last character of a character list, if any. -/
def lastChar (l : List Char) : Option Char := l.reverse.head?

/-- Well-formedness that every record surviving the Fetcher's filter has:
its transaction-date string parses as a calendar date, and its symbol
(a registry ticker) contains no dash. -/
def wfTx (r : Tx) : Prop :=
  (parseDateChars r.txDate.data).isSome = true ∧ '-' ∉ r.sym.data

instance instDecidableWfTx (r : Tx) : Decidable (wfTx r) := by
  unfold wfTx
  exact inferInstance

/-- First C2 witness record: a purchase by Alice. -/
def c2w1 : Tx :=
  { sym := "AAPL", name := "Alice", code := "P", change := 5, price := 1,
    share := 0, txDate := "2024-09-02", fileDate := "2024-09-03" }

/-- Second C2 witness record: same identity key as `c2w1`, different
filing date. -/
def c2w2 : Tx :=
  { sym := "AAPL", name := "Alice", code := "P", change := 5, price := 1,
    share := 0, txDate := "2024-09-02", fileDate := "2024-09-04" }

/-- Third C2 witness record: a sale by Bob on an older date. -/
def c2w3 : Tx :=
  { sym := "MSFT", name := "Bob", code := "S", change := -2, price := 2,
    share := 0, txDate := "2024-09-01", fileDate := "" }

/-- A Symbol Registry entry: display name and sector label. -/
structure SymInfo where
  n : String
  s : String
deriving DecidableEq

set_option maxHeartbeats 2000000 in
/-- The static S&P 500 symbol registry (`SP500` in the source), in its
literal insertion order. -/
def SP500 : List (String × SymInfo) :=
  [("AAPL", ⟨"Apple", "Technology"⟩),
   ("MSFT", ⟨"Microsoft", "Technology"⟩),
   ("AMZN", ⟨"Amazon", "Consumer"⟩),
   ("NVDA", ⟨"NVIDIA", "Technology"⟩),
   ("GOOGL", ⟨"Alphabet", "Technology"⟩),
   ("META", ⟨"Meta", "Technology"⟩),
   ("TSLA", ⟨"Tesla", "Consumer"⟩),
   ("JPM", ⟨"JPMorgan", "Financials"⟩),
   ("V", ⟨"Visa", "Financials"⟩),
   ("JNJ", ⟨"J&J", "Healthcare"⟩),
   ("UNH", ⟨"UnitedHealth", "Healthcare"⟩),
   ("XOM", ⟨"ExxonMobil", "Energy"⟩),
   ("WMT", ⟨"Walmart", "Consumer"⟩),
   ("MA", ⟨"Mastercard", "Financials"⟩),
   ("PG", ⟨"P&G", "Consumer"⟩),
   ("HD", ⟨"Home Depot", "Consumer"⟩),
   ("CVX", ⟨"Chevron", "Energy"⟩),
   ("MRK", ⟨"Merck", "Healthcare"⟩),
   ("ABBV", ⟨"AbbVie", "Healthcare"⟩),
   ("KO", ⟨"Coca-Cola", "Consumer"⟩),
   ("PEP", ⟨"PepsiCo", "Consumer"⟩),
   ("AVGO", ⟨"Broadcom", "Technology"⟩),
   ("LLY", ⟨"Eli Lilly", "Healthcare"⟩),
   ("COST", ⟨"Costco", "Consumer"⟩),
   ("TMO", ⟨"Thermo Fisher", "Healthcare"⟩),
   ("MCD", ⟨"McDonald's", "Consumer"⟩),
   ("ABT", ⟨"Abbott", "Healthcare"⟩),
   ("CSCO", ⟨"Cisco", "Technology"⟩),
   ("ACN", ⟨"Accenture", "Technology"⟩),
   ("NKE", ⟨"Nike", "Consumer"⟩),
   ("NEE", ⟨"NextEra", "Utilities"⟩),
   ("CRM", ⟨"Salesforce", "Technology"⟩),
   ("LIN", ⟨"Linde", "Materials"⟩),
   ("ORCL", ⟨"Oracle", "Technology"⟩),
   ("AMD", ⟨"AMD", "Technology"⟩),
   ("INTC", ⟨"Intel", "Technology"⟩),
   ("BA", ⟨"Boeing", "Industrials"⟩),
   ("RTX", ⟨"RTX", "Industrials"⟩),
   ("CAT", ⟨"Caterpillar", "Industrials"⟩),
   ("GE", ⟨"GE", "Industrials"⟩),
   ("DE", ⟨"Deere", "Industrials"⟩),
   ("UPS", ⟨"UPS", "Industrials"⟩),
   ("GS", ⟨"Goldman Sachs", "Financials"⟩),
   ("MS", ⟨"Morgan Stanley", "Financials"⟩),
   ("BLK", ⟨"BlackRock", "Financials"⟩),
   ("AXP", ⟨"Amex", "Financials"⟩),
   ("SPGI", ⟨"S&P Global", "Financials"⟩),
   ("DUK", ⟨"Duke Energy", "Utilities"⟩),
   ("SO", ⟨"Southern Co", "Utilities"⟩),
   ("AMT", ⟨"American Tower", "Real Estate"⟩),
   ("PLD", ⟨"Prologis", "Real Estate"⟩),
   ("COP", ⟨"ConocoPhillips", "Energy"⟩),
   ("SLB", ⟨"Schlumberger", "Energy"⟩),
   ("EOG", ⟨"EOG", "Energy"⟩),
   ("APD", ⟨"Air Products", "Materials"⟩),
   ("SHW", ⟨"Sherwin-Williams", "Materials"⟩),
   ("ADBE", ⟨"Adobe", "Technology"⟩),
   ("NOW", ⟨"ServiceNow", "Technology"⟩),
   ("INTU", ⟨"Intuit", "Technology"⟩),
   ("QCOM", ⟨"Qualcomm", "Technology"⟩),
   ("ISRG", ⟨"Intuitive Surg.", "Healthcare"⟩),
   ("GILD", ⟨"Gilead", "Healthcare"⟩),
   ("AMGN", ⟨"Amgen", "Healthcare"⟩),
   ("MDT", ⟨"Medtronic", "Healthcare"⟩),
   ("PFE", ⟨"Pfizer", "Healthcare"⟩),
   ("BMY", ⟨"Bristol-Myers", "Healthcare"⟩),
   ("T", ⟨"AT&T", "Telecom"⟩),
   ("VZ", ⟨"Verizon", "Telecom"⟩),
   ("TMUS", ⟨"T-Mobile", "Telecom"⟩),
   ("DIS", ⟨"Disney", "Consumer"⟩),
   ("NFLX", ⟨"Netflix", "Consumer"⟩),
   ("CMCSA", ⟨"Comcast", "Consumer"⟩),
   ("PM", ⟨"Philip Morris", "Consumer"⟩)]

/-- `SP500.get(sym)`: registry lookup by ticker. -/
def sp500Get (sym : String) : Option SymInfo :=
  (List.find? (fun e => e.1 = sym) SP500).map (fun e => e.2)

/-- Per-stock running aggregate: `{"total": .., "count": ..}`. -/
structure StockAgg where
  total : ℚ
  count : ℕ
deriving DecidableEq

/-- An entry of an insider's transaction list:
`{"sym": .., "date": .., "val": ..}`. -/
structure InsTxEntry where
  sym : String
  date : String
  val : ℚ
deriving DecidableEq

/-- Per-insider running aggregate: `{"total": .., "sym": .., "txs": ..}`. -/
structure InsAgg where
  total : ℚ
  sym : String
  txs : List InsTxEntry
deriving DecidableEq

/-- Per-sector rollup: `{"buys": .., "sells": ..}`. -/
structure SecAgg where
  buys : ℚ
  sells : ℚ
deriving DecidableEq

/-- `d.setdefault(sym, {"total": 0, "count": 0}); d[sym]["total"] += val;
d[sym]["count"] += 1` on an insertion-ordered dict. -/
def bumpStock (sym : String) (val : ℚ) : List (String × StockAgg) → List (String × StockAgg)
  | [] => [(sym, ⟨val, 1⟩)]
  | (k, v) :: rest =>
    if k = sym then (k, ⟨v.total + val, v.count + 1⟩) :: rest
    else (k, v) :: bumpStock sym val rest

/-- The single pass of `build_summary` that fills `buy_stocks` and
`sell_stocks`: a `P` record bumps the buy dict, any other record bumps
the sell dict. -/
def top_stocks (l : List Tx) : List (String × StockAgg) × List (String × StockAgg) :=
  l.foldl
    (fun acc tx =>
      if tx.code = "P" then (bumpStock tx.sym (txVal tx) acc.1, acc.2)
      else (acc.1, bumpStock tx.sym (txVal tx) acc.2))
    ([], [])

/-- Unconditional insider accumulation, as used for sell insiders:
`setdefault(name, {"total": 0, "sym": sym, "txs": []})`, then
`total += val` and `txs.append(...)`; `sym` keeps its first value. -/
def bumpInsider (name sym date : String) (val : ℚ) :
    List (String × InsAgg) → List (String × InsAgg)
  | [] => [(name, ⟨val, sym, [⟨sym, date, val⟩]⟩)]
  | (k, v) :: rest =>
    if k = name then (k, ⟨v.total + val, v.sym, v.txs ++ [⟨sym, date, val⟩]⟩) :: rest
    else (k, v) :: bumpInsider name sym date val rest

/-- Dict lookup on the insertion-ordered association list. -/
def dictFind (name : String) (m : List (String × InsAgg)) : Option InsAgg :=
  (m.find? (fun e => e.1 = name)).map (fun e => e.2)

/-- One step of the `buy_insiders` accumulation, gated by the source's
self-referential condition `name not in buy_insiders or
buy_insiders[name]["total"] < val + buy_insiders[name]["total"]`;
a non-P record leaves the buy dict unchanged. -/
def buyStepCond (acc : List (String × InsAgg)) (tx : Tx) : List (String × InsAgg) :=
  if tx.code = "P" then
    match dictFind tx.name acc with
    | none => bumpInsider tx.name tx.sym tx.txDate (txVal tx) acc
    | some v =>
      if v.total < txVal tx + v.total then
        bumpInsider tx.name tx.sym tx.txDate (txVal tx) acc
      else acc
  else acc

/-- One step of the `sell_insiders` accumulation: a non-P record is
accumulated unconditionally; a P record leaves the sell dict unchanged. -/
def sellStepUncond (acc : List (String × InsAgg)) (tx : Tx) : List (String × InsAgg) :=
  if tx.code = "P" then acc
  else bumpInsider tx.name tx.sym tx.txDate (txVal tx) acc

/-- One step of the combined insider pass: a P record touches only the
buy dict, any other record touches only the sell dict. -/
def insiderStep (acc : List (String × InsAgg) × List (String × InsAgg)) (tx : Tx) :
    List (String × InsAgg) × List (String × InsAgg) :=
  (buyStepCond acc.1 tx, sellStepUncond acc.2 tx)

/-- The single pass of `build_summary` that fills `buy_insiders` and
`sell_insiders`. -/
def top_insiders (l : List Tx) : List (String × InsAgg) × List (String × InsAgg) :=
  l.foldl insiderStep ([], [])

/-- One buy-insider step with the condition elided (the unconditional
accumulation used for sell insiders, applied to P records). -/
def buyStepUncond (acc : List (String × InsAgg)) (tx : Tx) : List (String × InsAgg) :=
  if tx.code = "P" then bumpInsider tx.name tx.sym tx.txDate (txVal tx) acc
  else acc

/-- The buy-insider accumulation with the condition elided, i.e. the
spec's reading of the quirky gate as a no-op: every `P` record is
accumulated unconditionally, exactly like the sell side. -/
def top_buy_insiders_uncond (l : List Tx) : List (String × InsAgg) :=
  l.foldl buyStepUncond []

/-- `sectors.setdefault(sec, {"buys": 0, "sells": 0})` followed by the
buy-or-sell increment. -/
def bumpSector (sec : String) (isBuy : Bool) (val : ℚ) :
    List (String × SecAgg) → List (String × SecAgg)
  | [] => [(sec, if isBuy then ⟨val, 0⟩ else ⟨0, val⟩)]
  | (k, v) :: rest =>
    if k = sec then
      (k, if isBuy then ⟨v.buys + val, v.sells⟩ else ⟨v.buys, v.sells + val⟩) :: rest
    else (k, v) :: bumpSector sec isBuy val rest

/-- The sector rollup pass of `build_summary`: records whose symbol is
not in the registry are skipped. -/
def sector_rollup (l : List Tx) : List (String × SecAgg) :=
  l.foldl
    (fun acc tx =>
      match sp500Get tx.sym with
      | none => acc
      | some info => bumpSector info.s (tx.code = "P") (txVal tx) acc)
    []

/-- Rational floor via flooring integer division (kernel-computable). -/
def ratFloor (x : ℚ) : Int := Int.fdiv x.num x.den

/-- Python `round(x, 2)` idealized on exact rationals: scale by 100 and
round half to even. -/
def round2 (x : ℚ) : ℚ :=
  let y := x * 100
  let n := ratFloor y
  let r := y - (n : ℚ)
  let z : Int :=
    if r < 1 / 2 then n
    else if 1 / 2 < r then n + 1
    else if n % 2 = 0 then n else n + 1
  (z : ℚ) / 100

/-- `buys = [tx for tx in transactions if tx["code"] == "P"]`. -/
def buys (l : List Tx) : List Tx := l.filter (fun tx => tx.code = "P")

/-- `sells = [tx for tx in transactions if tx["code"] == "S"]`. -/
def sells (l : List Tx) : List Tx := l.filter (fun tx => tx.code = "S")

/-- `buy_val = sum(abs(tx["change"] * tx["price"]) for tx in buys)`. -/
def buy_val (l : List Tx) : ℚ := ((buys l).map txVal).sum

/-- `sell_val = sum(abs(tx["change"] * tx["price"]) for tx in sells)`. -/
def sell_val (l : List Tx) : ℚ := ((sells l).map txVal).sum

/-- Comparison for the stock rankings:
`sorted(.., key=lambda x: -x[1]["total"])` (stable, descending total). -/
def stockLe (a b : String × StockAgg) : Bool := b.2.total ≤ a.2.total

/-- Comparison for the insider rankings (descending total). -/
def insiderLe (a b : String × InsAgg) : Bool := b.2.total ≤ a.2.total

/-- Comparison for insider transaction lists:
`sorted(v["txs"], key=lambda t: -t["val"])` (descending value). -/
def insTxLe (a b : InsTxEntry) : Bool := b.val ≤ a.val

/-- Comparison for the sector list:
`sorted(.., key=lambda x: -(x[1]["buys"] + x[1]["sells"]))`. -/
def sectorLe (a b : String × SecAgg) : Bool :=
  b.2.buys + b.2.sells ≤ a.2.buys + a.2.sells

/-- The per-insider output entry of the rankings: total and first symbol
unchanged, transaction list cut to its top 5 by value. -/
def finishInsider (e : String × InsAgg) : String × InsAgg :=
  (e.1, ⟨e.2.total, e.2.sym, (sortS insTxLe e.2.txs).take 5⟩)

/-- The Summary object built by `build_summary` (the `updated` timestamp
string is passed in, standing for `datetime.utcnow()`). -/
structure Summary where
  updated : String
  buyCount : ℕ
  sellCount : ℕ
  buyVal : ℚ
  sellVal : ℚ
  uniqueSymbols : ℕ
  topBuyStocks : List (String × StockAgg)
  topSellStocks : List (String × StockAgg)
  topBuyInsiders : List (String × InsAgg)
  topSellInsiders : List (String × InsAgg)
  sectors : List (String × SecAgg)
deriving DecidableEq

/-- `build_summary(transactions)`: counts and (rounded) total values per
code, unique-symbol count, the four top-5 rankings (stable-sorted
descending by total, truncated to 5) and the sector rollup sorted by
combined value. -/
def build_summary (updated : String) (l : List Tx) : Summary :=
  { updated := updated
    buyCount := (buys l).length
    sellCount := (sells l).length
    buyVal := round2 (buy_val l)
    sellVal := round2 (sell_val l)
    uniqueSymbols := ((l.map (fun tx => tx.sym)).eraseDups).length
    topBuyStocks := ((sortS stockLe (top_stocks l).1).take 5)
    topSellStocks := ((sortS stockLe (top_stocks l).2).take 5)
    topBuyInsiders := ((sortS insiderLe ((top_insiders l).1.map finishInsider)).take 5)
    topSellInsiders := ((sortS insiderLe ((top_insiders l).2.map finishInsider)).take 5)
    sectors := sortS sectorLe (sector_rollup l) }

/-- Naive recomputation of the buy count: count records with code P. -/
def naive_buy_count (l : List Tx) : ℕ := l.countP (fun tx => tx.code = "P")

/-- Naive recomputation of the sell count: count records with code S. -/
def naive_sell_count (l : List Tx) : ℕ := l.countP (fun tx => tx.code = "S")

/-- Naive recomputation of the buy value: a direct fold summing
`|change × price|` over records with code P. -/
def naive_buy_val (l : List Tx) : ℚ :=
  l.foldr (fun tx acc => if tx.code = "P" then txVal tx + acc else acc) 0

/-- Naive recomputation of the sell value over records with code S. -/
def naive_sell_val (l : List Tx) : ℚ :=
  l.foldr (fun tx acc => if tx.code = "S" then txVal tx + acc else acc) 0

/-- A one-record input whose value has more than two decimal places:
`round(buy_val, 2)` differs from the naive sum. -/
def c5cex : Tx :=
  { sym := "AAPL", name := "Norah", code := "P", change := 1, price := 3 / 200,
    share := 0, txDate := "2024-09-01", fileDate := "" }

/-- C3 counterexample record: a purchase with nonzero value. -/
def c3t1 : Tx :=
  { sym := "AAPL", name := "Carol", code := "P", change := 1, price := 1,
    share := 0, txDate := "2024-09-01", fileDate := "" }

/-- C3 counterexample record: a later purchase by the same insider whose
price defaulted to 0, so its value is 0. -/
def c3t2 : Tx :=
  { sym := "AAPL", name := "Carol", code := "P", change := 2, price := 0,
    share := 0, txDate := "2024-09-02", fileDate := "" }

/-- C4 counterexample record: a purchase of AAPL with value 1. -/
def c4a : Tx :=
  { sym := "AAPL", name := "Dan", code := "P", change := 1, price := 1,
    share := 0, txDate := "2024-09-01", fileDate := "" }

/-- C4 counterexample record: a purchase of MSFT with the same value 1. -/
def c4b : Tx :=
  { sym := "MSFT", name := "Eve", code := "P", change := 1, price := 1,
    share := 0, txDate := "2024-09-01", fileDate := "" }

/-- C6 witness record: a purchase on a ticker absent from the registry. -/
def c6r : Tx :=
  { sym := "ZZZZ", name := "Fay", code := "P", change := 1, price := 1,
    share := 0, txDate := "2024-09-01", fileDate := "" }

/-- Outcome of one `requests.get` attempt: either the request (or body
parsing) raised, or an HTTP response with a status code and parsed body. -/
inductive Resp (β : Type) where
  | net_err : Resp β
  | http (status : ℕ) (body : β) : Resp β
deriving DecidableEq

/-- Observable events of a run: the fatal configuration report, directory
creation, a network request, a `time.sleep`, and an artifact write. -/
inductive Ev where
  | configError : Ev
  | mkdir (path : String) : Ev
  | net (url : String) : Ev
  | sleep (seconds : ℚ) : Ev
  | write (path : String) : Ev
deriving DecidableEq

/-- `BASE` from the source. -/
def BASE : String := "https://finnhub.io/api/v1"

/-- URL construction of `api_call`: append the token with `&` when the
endpoint already has a query string, else with `?`. -/
def urlOf (endpoint key : String) : String :=
  if '?' ∈ endpoint.data then BASE ++ endpoint ++ "&token=" ++ key
  else BASE ++ endpoint ++ "?token=" ++ key

/-- The retry loop of `api_call`, at a given 0-based attempt index with
the given number of attempts remaining. Each iteration issues one
request; 429 sleeps `30*(attempt+1)` and retries, 403 sleeps 60 and
retries, any other status ≥ 400 raises in `raise_for_status` and the
handler sleeps 5 and retries, as does a raised request; otherwise the
parsed body is returned. After the last attempt the result is `None`. -/
def api_call_go {β : Type} (resps : ℕ → Resp β) (url : String) :
    ℕ → ℕ → Option β × List Ev
  | _, 0 => (none, [])
  | attempt, rem + 1 =>
    match resps attempt with
    | Resp.net_err =>
      let rest := api_call_go resps url (attempt + 1) rem
      (rest.1, Ev.net url :: Ev.sleep 5 :: rest.2)
    | Resp.http status body =>
      if status = 429 then
        let rest := api_call_go resps url (attempt + 1) rem
        (rest.1, Ev.net url :: Ev.sleep (30 * (attempt + 1)) :: rest.2)
      else if status = 403 then
        let rest := api_call_go resps url (attempt + 1) rem
        (rest.1, Ev.net url :: Ev.sleep 60 :: rest.2)
      else if 400 ≤ status then
        let rest := api_call_go resps url (attempt + 1) rem
        (rest.1, Ev.net url :: Ev.sleep 5 :: rest.2)
      else (some body, [Ev.net url])

/-- `api_call(endpoint, retries)`: run the retry loop from attempt 0. -/
def api_call {β : Type} (resps : ℕ → Resp β) (url : String) (retries : ℕ) :
    Option β × List Ev :=
  api_call_go resps url 0 retries

/-- A response on which `api_call` retries: a raised request/parse error,
429, 403, or any other status ≥ 400. -/
def retryable {β : Type} : Resp β → Bool
  | Resp.net_err => true
  | Resp.http s _ => s = 429 || s = 403 || 400 ≤ s

/-- The sleep duration `api_call` waits after a retryable response at the
given 0-based attempt index. -/
def backoff {β : Type} : Resp β → ℕ → ℚ
  | Resp.net_err, _ => 5
  | Resp.http s _, i => if s = 429 then 30 * (i + 1) else if s = 403 then 60 else 5

/-- Recognize a request event. -/
def isNetEv : Ev → Bool
  | Ev.net _ => true
  | _ => false

/-- C9 witness oracle: a 429, then a 200 with body 7. -/
def c9oA : ℕ → Resp ℕ :=
  fun i => if i = 0 then Resp.http 429 0 else
    if i = 1 then Resp.http 200 7 else Resp.net_err

/-- C9 witness oracle: every attempt raises. -/
def c9oB : ℕ → Resp ℕ := fun _ => Resp.net_err

/-- `RATE_LIMIT_DELAY = 1.2` seconds. -/
def RATE_LIMIT_DELAY : ℚ := 6 / 5

/-- The insider-transaction endpoint for one symbol. -/
def insiderEndpoint (sym : String) : String :=
  "/stock/insider-transactions?symbol=" ++ sym

/-- One iteration of the symbol loop in `fetch_insider_transactions`:
call the API (3 attempts), filter the returned records when the response
holds a nonempty `data` list (`data and "data" in data and data["data"]`,
modelled as `some raws` with `raws ≠ []`), extend the accumulator, and
sleep the fixed inter-request delay. -/
def fetchStep (t : ℚ) (key : String)
    (resps : String → ℕ → Resp (Option (List RawTx)))
    (acc : List Tx × List Ev) (sym : String) : List Tx × List Ev :=
  let call := api_call (resps sym) (urlOf (insiderEndpoint sym) key) 3
  let filtered : List Tx :=
    match call.1 with
    | some (some raws) => if raws = [] then [] else filter_transactions (t - 180) sym raws
    | _ => []
  (acc.1 ++ filtered, acc.2 ++ call.2 ++ [Ev.sleep RATE_LIMIT_DELAY])

/-- `fetch_insider_transactions()`: loop over the registry symbols, then
sort the combined list time-descending and deduplicate. Returns the
final record list and the event trace. -/
def fetch_insider_transactions (t : ℚ) (key : String)
    (resps : String → ℕ → Resp (Option (List RawTx))) : List Tx × List Ev :=
  let folded := (SP500.map (fun e => e.1)).foldl (fetchStep t key resps) ([], [])
  (dedupe (sort_tx_desc folded.1), folded.2)

/-- `fetch_candles(symbols_needed)` as an event trace: per symbol one
price-history request, an artifact write when data came back (an empty
result or a raised error writes nothing), and a light delay. -/
def fetch_candles (syms : List String) (yf : String → Option Unit) : List Ev :=
  syms.foldl
    (fun acc sym =>
      acc ++ Ev.net ("yf:" ++ sym) ::
        ((match yf sym with
          | some _ => [Ev.write ("data/candles/" ++ sym ++ ".json")]
          | none => []) ++ [Ev.sleep (3 / 10)]))
    []

/-- `sorted(set(tx["sym"] for tx in transactions))`. -/
def active_symbols (l : List Tx) : List String :=
  sortS (fun a b => lexLe a.data b.data) ((l.map (fun tx => tx.sym)).eraseDups)

/-- `main()` as an event trace: abort with the error report when the API
key is empty; otherwise create the two data directories, fetch insider
transactions, write the transaction and summary artifacts, and fetch
candles for the active symbols. -/
def main_run (t : ℚ) (key : String)
    (resps : String → ℕ → Resp (Option (List RawTx)))
    (yf : String → Option Unit) : List Ev :=
  if key = "" then [Ev.configError]
  else
    Ev.mkdir "data" :: Ev.mkdir "data/candles" ::
      ((fetch_insider_transactions t key resps).2 ++
        (Ev.write "data/insider.json" :: Ev.write "data/summary.json" ::
          fetch_candles (active_symbols (fetch_insider_transactions t key resps).1) yf))

/-- C8 witness oracle: every request attempt raises. -/
def c8resps : String → ℕ → Resp (Option (List RawTx)) := fun _ _ => Resp.net_err

/-- C8 witness price-history oracle: no data for any symbol. -/
def c8yf : String → Option Unit := fun _ => none

/-- C1: every record in the Transaction Fetcher's filtered output has
transaction code in {P, S} (matched case-insensitively via upper-casing),
a present nonzero share-change, and an effective date (transaction date,
falling back to filing date) that parses as a calendar date and is not
older than 180 days before the reference time `t`. -/
theorem c1_filter_window (t : ℚ) (sym : String) (raws : List RawTx) (r : Tx)
    (hr : r ∈ filter_transactions (t - 180) sym raws) :
    (r.code = "P" ∨ r.code = "S") ∧ r.change ≠ 0 ∧
      ∃ d, parseDateChars r.txDate.data = some d ∧ t - 180 ≤ (dateToDays d : ℚ) := by
  obtain ⟨raw, -, heq⟩ := List.mem_filterMap.mp hr
  unfold pass_filter at heq
  split at heq
  case isFalse => exact absurd heq (by simp)
  case isTrue hcode =>
    split at heq
    case h_1 => exact absurd heq (by simp)
    case h_2 d hd =>
      split at heq
      case isTrue => exact absurd heq (by simp)
      case isFalse hcut =>
        split at heq
        case h_1 => exact absurd heq (by simp)
        case h_2 c hc =>
          split at heq
          case isTrue => exact absurd heq (by simp)
          case isFalse hz =>
            obtain rfl := Option.some.inj heq
            refine ⟨hcode, hz, d, hd, ?_⟩
            exact not_lt.mp hcut

/-- Witness for C1 at a concrete raw record and reference time. -/
theorem c1_filter_window_witness :
    sampleTx ∈ filter_transactions (sampleT - 180) "AAPL" [sampleRaw] ∧
    ((sampleTx.code = "P" ∨ sampleTx.code = "S") ∧ sampleTx.change ≠ 0 ∧
      ∃ d, parseDateChars sampleTx.txDate.data = some d ∧
        sampleT - 180 ≤ (dateToDays d : ℚ)) := by
  refine ⟨by decide!, ?_⟩
  exact c1_filter_window sampleT "AAPL" [sampleRaw] sampleTx (by decide!)

theorem mem_insertS {α : Type} (le : α → α → Bool) (a x : α) (l : List α) :
    x ∈ insertS le a l ↔ x = a ∨ x ∈ l := by
  induction l with
  | nil => simp [insertS]
  | cons b l ih =>
    simp only [insertS]
    split
    · simp
    · simp only [List.mem_cons, ih]
      tauto

theorem mem_sortS {α : Type} (le : α → α → Bool) (x : α) (l : List α) :
    x ∈ sortS le l ↔ x ∈ l := by
  induction l with
  | nil => simp [sortS]
  | cons a l ih => simp [sortS, mem_insertS, ih]

theorem keyOf_eq_of_tupleOf_eq {a b : Tx} (h : tupleOf a = tupleOf b) :
    keyOf a = keyOf b := by
  simp only [tupleOf, Prod.mk.injEq] at h
  obtain ⟨h1, h2, h3, h4⟩ := h
  unfold keyOf
  rw [h1, h2, h3, h4]

theorem dedupeGo_key_not_seen (seen : List (List Char)) (l : List Tx) (x : Tx)
    (hx : x ∈ dedupeGo seen l) : keyOf x ∉ seen := by
  induction l generalizing seen with
  | nil => simp [dedupeGo] at hx
  | cons tx rest ih =>
    unfold dedupeGo at hx
    split at hx
    · exact ih seen hx
    · rcases List.mem_cons.mp hx with rfl | hx'
      · assumption
      · intro hmem
        exact ih _ hx' (List.mem_cons_of_mem _ hmem)

theorem dedupeGo_pairwise_key (seen : List (List Char)) (l : List Tx) :
    (dedupeGo seen l).Pairwise (fun a b => keyOf a ≠ keyOf b) := by
  induction l generalizing seen with
  | nil => exact List.Pairwise.nil
  | cons tx rest ih =>
    unfold dedupeGo
    split
    · exact ih seen
    · refine List.Pairwise.cons ?_ (ih _)
      intro b hb heq
      have := dedupeGo_key_not_seen _ _ _ hb
      exact this (heq ▸ List.mem_cons_self _ _)

theorem dedupeGo_first_key (seen : List (List Char)) (l : List Tx) (r : Tx)
    (hr : r ∈ dedupeGo seen l) :
    (l.filter (fun x => keyOf x = keyOf r)).head? = some r := by
  induction l generalizing seen with
  | nil => simp [dedupeGo] at hr
  | cons tx rest ih =>
    have hrs : keyOf r ∉ seen := dedupeGo_key_not_seen _ _ _ hr
    unfold dedupeGo at hr
    split at hr
    case isTrue hseen =>
      have hne : ¬ (keyOf tx = keyOf r) := fun he => hrs (he ▸ hseen)
      simpa [List.filter_cons, hne] using ih seen hr
    case isFalse hseen =>
      rcases List.mem_cons.mp hr with rfl | hr'
      · simp [List.filter_cons]
      · have hrs' : keyOf r ∉ keyOf tx :: seen := dedupeGo_key_not_seen _ _ _ hr'
        have hne : ¬ (keyOf tx = keyOf r) := by
          intro he
          exact hrs' (he ▸ List.mem_cons_self _ _)
        simpa [List.filter_cons, hne] using ih _ hr'

theorem head_filter_mono {α : Type} (p q : α → Bool) (l : List α) (r : α)
    (hpq : ∀ x, p x = true → q x = true) (hp : p r = true)
    (hq : (l.filter q).head? = some r) : (l.filter p).head? = some r := by
  induction l with
  | nil => simp at hq
  | cons a l ih =>
    by_cases hqa : q a = true
    · rw [List.filter_cons_of_pos hqa] at hq
      obtain rfl : a = r := by simpa using hq
      rw [List.filter_cons_of_pos hp]
      rfl
    · have hpa : ¬ p a = true := fun h => hqa (hpq _ h)
      rw [List.filter_cons_of_neg hqa] at hq
      rw [List.filter_cons_of_neg (by simpa using hpa)]
      exact ih hq

theorem dedupeGo_keeps_first (seen : List (List Char)) (l : List Tx) (x : Tx)
    (hfirst : (l.filter (fun z => keyOf z = keyOf x)).head? = some x)
    (hseen : keyOf x ∉ seen) : x ∈ dedupeGo seen l := by
  induction l generalizing seen with
  | nil => simp at hfirst
  | cons tx rest ih =>
    by_cases he : keyOf tx = keyOf x
    · rw [List.filter_cons_of_pos (by simpa using he)] at hfirst
      obtain rfl : tx = x := by simpa using hfirst
      unfold dedupeGo
      rw [if_neg hseen]
      exact List.mem_cons_self _ _
    · rw [List.filter_cons_of_neg (by simpa using he)] at hfirst
      unfold dedupeGo
      split
      · exact ih _ hfirst hseen
      · refine List.mem_cons_of_mem _ (ih _ hfirst ?_)
        intro hc
        rcases List.mem_cons.mp hc with hc1 | hc2
        · exact he hc1.symm
        · exact hseen hc2

theorem dedupeGo_of_pairwise (seen : List (List Char)) (l : List Tx)
    (hp : l.Pairwise (fun a b => keyOf a ≠ keyOf b))
    (hs : ∀ x ∈ l, keyOf x ∉ seen) : dedupeGo seen l = l := by
  induction l generalizing seen with
  | nil => rfl
  | cons tx rest ih =>
    unfold dedupeGo
    rw [if_neg (hs tx (List.mem_cons_self _ _))]
    congr 1
    refine ih _ hp.of_cons ?_
    intro x hx hc
    rcases List.mem_cons.mp hc with hc1 | hc2
    · exact (List.pairwise_cons.mp hp).1 x hx hc1.symm
    · exact hs x (List.mem_cons_of_mem _ hx) hc2

/-- C7: the deduplication step is idempotent: applying the dedupe step to
its own output yields the same sequence of records. -/
theorem c7_dedupe_idempotent (l : List Tx) : dedupe (dedupe l) = dedupe l := by
  unfold dedupe
  exact dedupeGo_of_pairwise [] _ (dedupeGo_pairwise_key [] l) (by simp)

theorem sep_prefix_inj : ∀ (p q u v : List Char), '-' ∉ p → '-' ∉ q →
    p ++ '-' :: u = q ++ '-' :: v → p = q ∧ u = v := by
  intro p
  induction p with
  | nil =>
    intro q u v _ hq h
    cases q with
    | nil => simpa using h
    | cons c q2 =>
      simp only [List.nil_append, List.cons_append, List.cons.injEq] at h
      exact absurd (h.1 ▸ List.mem_cons_self c q2) hq
  | cons c p2 ih =>
    intro q u v hp hq h
    cases q with
    | nil =>
      simp only [List.cons_append, List.nil_append, List.cons.injEq] at h
      exact absurd (h.1 ▸ List.mem_cons_self c p2) hp
    | cons c2 q2 =>
      simp only [List.cons_append, List.cons.injEq] at h
      obtain ⟨rfl, h2⟩ := h
      have hp2 : '-' ∉ p2 := fun hx => hp (List.mem_cons_of_mem _ hx)
      have hq2 : '-' ∉ q2 := fun hx => hq (List.mem_cons_of_mem _ hx)
      obtain ⟨rfl, rfl⟩ := ih q2 u v hp2 hq2 h2
      exact ⟨rfl, rfl⟩

theorem sep_suffix_inj (a b x y : List Char) (hx : '-' ∉ x) (hy : '-' ∉ y)
    (h : a ++ '-' :: x = b ++ '-' :: y) : a = b ∧ x = y := by
  have h2 : x.reverse ++ '-' :: a.reverse = y.reverse ++ '-' :: b.reverse := by
    have := congrArg List.reverse h
    simpa [List.reverse_append] using this
  have hrx : '-' ∉ x.reverse := by simpa using hx
  have hry : '-' ∉ y.reverse := by simpa using hy
  obtain ⟨h3, h4⟩ := sep_prefix_inj _ _ _ _ hrx hry h2
  exact ⟨List.reverse_injective h4, List.reverse_injective h3⟩

theorem digitChar_isDigit (n : ℕ) : (digitChar n).isDigit = true := by
  unfold digitChar
  split <;> decide

theorem digitChar_val (n : ℕ) (h : n < 10) : (digitChar n).toNat - 48 = n := by
  interval_cases n <;> decide

theorem digitsToNat_append_digit (xs : List Char) (c : Char) :
    digitsToNat (xs ++ [c]) = 10 * digitsToNat xs + (c.toNat - 48) := by
  simp [digitsToNat, List.foldl_append]

theorem natReprAux_spec : ∀ (fuel n : ℕ), n < fuel →
    natReprAux fuel n ≠ [] ∧ (∀ c ∈ natReprAux fuel n, c.isDigit = true) ∧
      digitsToNat (natReprAux fuel n) = n := by
  intro fuel
  induction fuel with
  | zero => omega
  | succ fuel ih =>
    intro n hn
    unfold natReprAux
    by_cases h10 : n < 10
    · rw [if_pos h10]
      refine ⟨by simp, ?_, ?_⟩
      · intro c hc
        rw [List.mem_singleton.mp hc]
        exact digitChar_isDigit n
      · simpa [digitsToNat] using digitChar_val n h10
    · rw [if_neg h10]
      have hlt : n / 10 < fuel := by omega
      obtain ⟨h1, h2, h3⟩ := ih (n / 10) hlt
      refine ⟨by simp, ?_, ?_⟩
      · intro c hc
        rcases List.mem_append.mp hc with hc1 | hc2
        · exact h2 c hc1
        · rw [List.mem_singleton.mp hc2]
          exact digitChar_isDigit _
      · rw [digitsToNat_append_digit, h3, digitChar_val _ (Nat.mod_lt _ (by omega))]
        omega

theorem natRepr_ne_nil (n : ℕ) : natRepr n ≠ [] :=
  (natReprAux_spec (n + 1) n (Nat.lt_succ_self n)).1

theorem natRepr_isDigit (n : ℕ) : ∀ c ∈ natRepr n, c.isDigit = true :=
  (natReprAux_spec (n + 1) n (Nat.lt_succ_self n)).2.1

theorem digitsToNat_natRepr (n : ℕ) : digitsToNat (natRepr n) = n :=
  (natReprAux_spec (n + 1) n (Nat.lt_succ_self n)).2.2

theorem natRepr_no_dash (n : ℕ) : '-' ∉ natRepr n := by
  intro h
  have := natRepr_isDigit n '-' h
  simp [Char.isDigit] at this

theorem natRepr_inj {m n : ℕ} (h : natRepr m = natRepr n) : m = n := by
  have := congrArg digitsToNat h
  rwa [digitsToNat_natRepr, digitsToNat_natRepr] at this

theorem intRepr_inj {a b : Int} (h : intRepr a = intRepr b) : a = b := by
  unfold intRepr at h
  by_cases ha : a < 0 <;> by_cases hb : b < 0
  · rw [if_pos ha, if_pos hb] at h
    have := natRepr_inj (List.cons.inj h).2
    omega
  · rw [if_pos ha, if_neg hb] at h
    exact absurd (h ▸ List.mem_cons_self '-' _) (natRepr_no_dash _)
  · rw [if_neg ha, if_pos hb] at h
    exact absurd (h.symm ▸ List.mem_cons_self '-' _) (natRepr_no_dash _)
  · rw [if_neg ha, if_neg hb] at h
    have := natRepr_inj h
    omega

theorem dash_not_mem_takeWhile (l : List Char) :
    '-' ∉ l.takeWhile (fun c => c ≠ '-') := by
  intro h
  have := List.mem_takeWhile_imp h
  simp at this

theorem parse_structure (l : List Char) (v : ℕ × ℕ × ℕ)
    (h : parseDateChars l = some v) :
    ∃ y m d : List Char, l = y ++ '-' :: (m ++ '-' :: d) ∧
      ('-' ∉ y) ∧ ('-' ∉ m) ∧ ('-' ∉ d) ∧ y ≠ [] ∧ m ≠ [] ∧ d ≠ [] := by
  unfold parseDateChars at h
  split at h
  case h_2 => exact absurd h (by simp)
  case h_1 r1 hdrop =>
    split at h
    case h_2 => exact absurd h (by simp)
    case h_1 r2 hdrop2 =>
      simp only [] at h
      split at h
      case isFalse => exact absurd h (by simp)
      case isTrue hrest =>
        split at h
        case isFalse => exact absurd h (by simp)
        case isTrue hlen =>
          have e1 : l = l.takeWhile (fun c => c ≠ '-') ++ ('-' :: r1) := by
            rw [← hdrop, List.takeWhile_append_dropWhile]
          have e2 : r1 = r1.takeWhile (fun c => c ≠ '-') ++ ('-' :: r2) := by
            rw [← hdrop2, List.takeWhile_append_dropWhile]
          have e3 : r2.takeWhile (fun c => c ≠ '-') = r2 := by
            conv_rhs => rw [← List.takeWhile_append_dropWhile (p := fun c => c ≠ '-') (l := r2)]
            rw [hrest, List.append_nil]
          refine ⟨l.takeWhile (fun c => c ≠ '-'), r1.takeWhile (fun c => c ≠ '-'),
            r2.takeWhile (fun c => c ≠ '-'), ?_, dash_not_mem_takeWhile l,
            dash_not_mem_takeWhile r1, dash_not_mem_takeWhile r2, ?_, ?_, ?_⟩
          · rw [e3]
            conv_lhs => rw [e1, e2]
          · intro hnil
            rw [hnil] at hlen
            simp at hlen
          · intro hnil
            rw [hnil] at hlen
            simp at hlen
          · intro hnil
            rw [hnil] at hlen
            simp at hlen

theorem lastChar_append (a b : List Char) (hb : b ≠ []) :
    lastChar (a ++ b) = lastChar b := by
  unfold lastChar
  rw [List.reverse_append]
  cases hb2 : b.reverse with
  | nil => exact absurd (by simpa using congrArg List.reverse hb2) hb
  | cons c cs => simp [hb2]

theorem lastChar_mem (l : List Char) (c : Char) (h : lastChar l = some c) : c ∈ l := by
  unfold lastChar at h
  have := List.mem_of_mem_head? h
  simpa using this

theorem str_ext {s t : String} (h : s.data = t.data) : s = t := by
  cases s
  cases t
  exact congrArg String.mk h

theorem name_date_inj (n1 n2 y1 m1 d1 y2 m2 d2 : List Char)
    (hy1 : '-' ∉ y1) (hm1 : '-' ∉ m1) (hd1 : '-' ∉ d1)
    (hy2 : '-' ∉ y2) (hm2 : '-' ∉ m2) (hd2 : '-' ∉ d2)
    (h : n1 ++ '-' :: (y1 ++ '-' :: (m1 ++ '-' :: d1)) =
         n2 ++ '-' :: (y2 ++ '-' :: (m2 ++ '-' :: d2))) :
    n1 = n2 ∧ y1 = y2 ∧ m1 = m2 ∧ d1 = d2 := by
  have h1 : (n1 ++ '-' :: (y1 ++ '-' :: m1)) ++ '-' :: d1 =
      (n2 ++ '-' :: (y2 ++ '-' :: m2)) ++ '-' :: d2 := by
    simpa [List.append_assoc] using h
  obtain ⟨h2, hd⟩ := sep_suffix_inj _ _ _ _ hd1 hd2 h1
  have h3 : (n1 ++ '-' :: y1) ++ '-' :: m1 = (n2 ++ '-' :: y2) ++ '-' :: m2 := by
    simpa [List.append_assoc] using h2
  obtain ⟨h4, hm⟩ := sep_suffix_inj _ _ _ _ hm1 hm2 h3
  obtain ⟨hn, hy⟩ := sep_suffix_inj _ _ _ _ hy1 hy2 h4
  exact ⟨hn, hy, hm, hd⟩

theorem keyOf_inj {a b : Tx} (ha : wfTx a) (hb : wfTx b)
    (h : keyOf a = keyOf b) : tupleOf a = tupleOf b := by
  obtain ⟨hpa, hsa⟩ := ha
  obtain ⟨hpb, hsb⟩ := hb
  obtain ⟨va, hva⟩ := Option.isSome_iff_exists.mp hpa
  obtain ⟨vb, hvb⟩ := Option.isSome_iff_exists.mp hpb
  obtain ⟨y1, m1, d1, ht1, hy1, hm1, hd1, hy1n, hm1n, hd1n⟩ := parse_structure _ _ hva
  obtain ⟨y2, m2, d2, ht2, hy2, hm2, hd2, hy2n, hm2n, hd2n⟩ := parse_structure _ _ hvb
  have h1 : (a.name.data ++ '-' :: (a.txDate.data ++ '-' :: intRepr a.change)) ++
        '-' :: a.sym.data =
      (b.name.data ++ '-' :: (b.txDate.data ++ '-' :: intRepr b.change)) ++
        '-' :: b.sym.data := by
    have h0 := h
    simp only [keyOf] at h0
    simpa [List.append_assoc] using h0
  obtain ⟨h2, hsym⟩ := sep_suffix_inj _ _ _ _ hsa hsb h1
  have main : (a.name.data ++ '-' :: a.txDate.data = b.name.data ++ '-' :: b.txDate.data) ∧
      a.change = b.change := by
    by_cases hca : a.change < 0 <;> by_cases hcb : b.change < 0
    · have h3 : ((a.name.data ++ '-' :: a.txDate.data) ++ ['-']) ++
          '-' :: natRepr a.change.natAbs =
          ((b.name.data ++ '-' :: b.txDate.data) ++ ['-']) ++
          '-' :: natRepr b.change.natAbs := by
        rw [intRepr, if_pos hca, intRepr, if_pos hcb] at h2
        simpa [List.append_assoc] using h2
      obtain ⟨h4, hch⟩ := sep_suffix_inj _ _ _ _ (natRepr_no_dash _) (natRepr_no_dash _) h3
      refine ⟨?_, ?_⟩
      · have hr := congrArg List.reverse h4
        simp only [List.reverse_append, List.reverse_cons, List.reverse_nil,
          List.nil_append, List.cons_append] at hr
        have ht := congrArg List.reverse (List.cons.inj hr).2
        simpa [List.reverse_append] using ht
      · have := natRepr_inj hch
        omega
    · exfalso
      have h3 : ((a.name.data ++ '-' :: a.txDate.data) ++ ['-']) ++
          '-' :: natRepr a.change.natAbs =
          (b.name.data ++ '-' :: b.txDate.data) ++ '-' :: natRepr b.change.toNat := by
        rw [intRepr, if_pos hca, intRepr, if_neg hcb] at h2
        simpa [List.append_assoc] using h2
      obtain ⟨h4, -⟩ := sep_suffix_inj _ _ _ _ (natRepr_no_dash _) (natRepr_no_dash _) h3
      have hL : lastChar ((a.name.data ++ '-' :: a.txDate.data) ++ ['-']) = some '-' := by
        rw [lastChar_append _ _ (by simp)]
        rfl
      have hR : lastChar (b.name.data ++ '-' :: b.txDate.data) = lastChar d2 := by
        rw [ht2]
        have e : b.name.data ++ '-' :: (y2 ++ '-' :: (m2 ++ '-' :: d2)) =
            (b.name.data ++ '-' :: (y2 ++ '-' :: m2) ++ ['-']) ++ d2 := by
          simp [List.append_assoc]
        rw [e, lastChar_append _ _ hd2n]
      rw [h4, hR] at hL
      exact hd2 (lastChar_mem _ _ hL)
    · exfalso
      have h3 : (a.name.data ++ '-' :: a.txDate.data) ++ '-' :: natRepr a.change.toNat =
          ((b.name.data ++ '-' :: b.txDate.data) ++ ['-']) ++
          '-' :: natRepr b.change.natAbs := by
        rw [intRepr, if_neg hca, intRepr, if_pos hcb] at h2
        simpa [List.append_assoc] using h2
      obtain ⟨h4, -⟩ := sep_suffix_inj _ _ _ _ (natRepr_no_dash _) (natRepr_no_dash _) h3
      have hL : lastChar ((b.name.data ++ '-' :: b.txDate.data) ++ ['-']) = some '-' := by
        rw [lastChar_append _ _ (by simp)]
        rfl
      have hR : lastChar (a.name.data ++ '-' :: a.txDate.data) = lastChar d1 := by
        rw [ht1]
        have e : a.name.data ++ '-' :: (y1 ++ '-' :: (m1 ++ '-' :: d1)) =
            (a.name.data ++ '-' :: (y1 ++ '-' :: m1) ++ ['-']) ++ d1 := by
          simp [List.append_assoc]
        rw [e, lastChar_append _ _ hd1n]
      rw [← h4, hR] at hL
      exact hd1 (lastChar_mem _ _ hL)
    · have h3 : (a.name.data ++ '-' :: a.txDate.data) ++ '-' :: natRepr a.change.toNat =
          (b.name.data ++ '-' :: b.txDate.data) ++ '-' :: natRepr b.change.toNat := by
        rw [intRepr, if_neg hca, intRepr, if_neg hcb] at h2
        simpa [List.append_assoc] using h2
      obtain ⟨h4, hch⟩ := sep_suffix_inj _ _ _ _ (natRepr_no_dash _) (natRepr_no_dash _) h3
      refine ⟨h4, ?_⟩
      have := natRepr_inj hch
      omega
  obtain ⟨h5, hchange⟩ := main
  rw [ht1, ht2] at h5
  obtain ⟨hn, hy, hm, hd⟩ := name_date_inj _ _ _ _ _ _ _ _ hy1 hm1 hd1 hy2 hm2 hd2 h5
  have htd : a.txDate.data = b.txDate.data := by rw [ht1, ht2, hy, hm, hd]
  unfold tupleOf
  rw [str_ext hn, str_ext htd, str_ext hsym, hchange]

theorem countP_le_one_of_pairwise (l : List Tx) (v : String × String × Int × String)
    (h : l.Pairwise (fun a b => tupleOf a ≠ tupleOf b)) :
    l.countP (fun x => tupleOf x = v) ≤ 1 := by
  induction l with
  | nil => simp
  | cons a l ih =>
    obtain ⟨ha, hl⟩ := List.pairwise_cons.mp h
    by_cases hav : tupleOf a = v
    · have hz : l.countP (fun x => tupleOf x = v) = 0 := by
        rw [List.countP_eq_zero]
        intro b hb
        simp only [decide_eq_true_eq]
        intro hbv
        exact ha b hb (hbv ▸ hav ▸ rfl)
      rw [List.countP_cons, hz]
      simp [hav]
    · have h0 : (decide (tupleOf a = v)) = false := by simp [hav]
      rw [List.countP_cons, h0]
      simpa using ih hl

/-- C2: after the time-descending sort, the dedup step (keyed on the
`name-txDate-change-sym` string) leaves no two records with the same
identity-key tuple; every survivor is the first occurrence of its tuple
in the sorted order; and (for well-formed filtered records) every input
record's tuple has exactly one surviving record — in particular two
records identical on the key but differing in filing date leave exactly
one survivor. -/
theorem c2_dedupe_key (l : List Tx) (hwf : ∀ r ∈ l, wfTx r) :
    (dedupe (sort_tx_desc l)).Pairwise (fun a b => tupleOf a ≠ tupleOf b) ∧
    (∀ r ∈ dedupe (sort_tx_desc l),
      ((sort_tx_desc l).filter (fun x => tupleOf x = tupleOf r)).head? = some r) ∧
    (∀ r ∈ l, (dedupe (sort_tx_desc l)).countP (fun x => tupleOf x = tupleOf r) = 1) := by
  set s := sort_tx_desc l with hs
  have hwfs : ∀ r ∈ s, wfTx r := by
    intro r hr
    exact hwf r ((mem_sortS _ _ _).mp hr)
  refine ⟨?_, ?_, ?_⟩
  · exact (dedupeGo_pairwise_key [] s).imp
      (fun hk ht => hk (keyOf_eq_of_tupleOf_eq ht))
  · intro r hr
    have hkf := dedupeGo_first_key [] s r hr
    refine head_filter_mono (fun x => decide (tupleOf x = tupleOf r))
      (fun x => decide (keyOf x = keyOf r)) s r ?_ (by simp) ?_
    · intro x hx
      simp only [decide_eq_true_eq] at hx ⊢
      exact keyOf_eq_of_tupleOf_eq hx
    · simpa using hkf
  · intro r hr
    have hrs : r ∈ s := (mem_sortS _ _ _).mpr hr
    have hrf : r ∈ s.filter (fun x => keyOf x = keyOf r) :=
      List.mem_filter.mpr ⟨hrs, by simp⟩
    obtain ⟨x0, t, hft⟩ : ∃ x0 t, s.filter (fun x => keyOf x = keyOf r) = x0 :: t := by
      cases hf : s.filter (fun x => keyOf x = keyOf r) with
      | nil => rw [hf] at hrf; simp at hrf
      | cons x0 t => exact ⟨x0, t, rfl⟩
    have hx0f : x0 ∈ s.filter (fun x => keyOf x = keyOf r) := by
      rw [hft]
      exact List.mem_cons_self _ _
    obtain ⟨hx0s, hx0k⟩ := List.mem_filter.mp hx0f
    have hkey : keyOf x0 = keyOf r := by simpa using hx0k
    have hx0d : x0 ∈ dedupe s := by
      have hpe : (fun z => decide (keyOf z = keyOf x0)) =
          (fun z => decide (keyOf z = keyOf r)) := by
        funext z
        rw [hkey]
      apply dedupeGo_keeps_first [] s x0 _ (by simp)
      rw [hpe, hft]
      rfl
    have htup : tupleOf x0 = tupleOf r :=
      keyOf_inj (hwfs x0 hx0s) (hwf r hr) hkey
    have hge : 0 < (dedupe s).countP (fun x => tupleOf x = tupleOf r) := by
      rw [List.countP_pos_iff]
      exact ⟨x0, hx0d, by simp [htup]⟩
    have hle : (dedupe s).countP (fun x => tupleOf x = tupleOf r) ≤ 1 :=
      countP_le_one_of_pairwise _ _
        ((dedupeGo_pairwise_key [] s).imp (fun hk ht => hk (keyOf_eq_of_tupleOf_eq ht)))
    omega

/-- Witness for C2 at a concrete record list containing a duplicated
identity key with differing filing dates. -/
theorem c2_dedupe_key_witness :
    (∀ r ∈ [c2w3, c2w1, c2w2], wfTx r) ∧
    ((dedupe (sort_tx_desc [c2w3, c2w1, c2w2])).Pairwise
        (fun a b => tupleOf a ≠ tupleOf b) ∧
      (∀ r ∈ dedupe (sort_tx_desc [c2w3, c2w1, c2w2]),
        ((sort_tx_desc [c2w3, c2w1, c2w2]).filter
            (fun x => tupleOf x = tupleOf r)).head? = some r) ∧
      (∀ r ∈ [c2w3, c2w1, c2w2],
        (dedupe (sort_tx_desc [c2w3, c2w1, c2w2])).countP
            (fun x => tupleOf x = tupleOf r) = 1)) := by
  refine ⟨by decide!, ?_⟩
  exact c2_dedupe_key [c2w3, c2w1, c2w2] (by decide!)

theorem buy_val_eq_naive (l : List Tx) : buy_val l = naive_buy_val l := by
  induction l with
  | nil => rfl
  | cons a l ih =>
    unfold buy_val naive_buy_val buys at ih ⊢
    by_cases ha : a.code = "P"
    · rw [List.filter_cons_of_pos (by simpa using ha), List.foldr_cons, if_pos ha]
      simpa using congrArg (fun z => txVal a + z) ih
    · rw [List.filter_cons_of_neg (by simpa using ha), List.foldr_cons, if_neg ha]
      exact ih

theorem sell_val_eq_naive (l : List Tx) : sell_val l = naive_sell_val l := by
  induction l with
  | nil => rfl
  | cons a l ih =>
    unfold sell_val naive_sell_val sells at ih ⊢
    by_cases ha : a.code = "S"
    · rw [List.filter_cons_of_pos (by simpa using ha), List.foldr_cons, if_pos ha]
      simpa using congrArg (fun z => txVal a + z) ih
    · rw [List.filter_cons_of_neg (by simpa using ha), List.foldr_cons, if_neg ha]
      exact ih

/-- C5 (amended): `buyCount`/`sellCount` equal the naive counts of
records with code P resp. S, and `buyVal`/`sellVal` equal the naive sums
of `|change × price|` over those records rounded to two decimal places —
the raw (unrounded) naive sum only up to that rounding. -/
theorem c5_counts_totals (u : String) (l : List Tx) :
    (build_summary u l).buyCount = naive_buy_count l ∧
    (build_summary u l).sellCount = naive_sell_count l ∧
    (build_summary u l).buyVal = round2 (naive_buy_val l) ∧
    (build_summary u l).sellVal = round2 (naive_sell_val l) := by
  refine ⟨?_, ?_, ?_, ?_⟩
  · simp [build_summary, buys, naive_buy_count, List.countP_eq_length_filter]
  · simp [build_summary, sells, naive_sell_count, List.countP_eq_length_filter]
  · simp [build_summary, buy_val_eq_naive]
  · simp [build_summary, sell_val_eq_naive]

/-- Counterexample to C5 as stated: on `[c5cex]` the summary's `buyVal`
(rounded to 2 decimals) differs from the naive sum of `|change × price|`
over the P records. -/
theorem c5_counts_totals_cex :
    (build_summary "" [c5cex]).buyVal ≠ naive_buy_val [c5cex] := by
  decide!

theorem foldl_insiderStep_proj (l : List Tx)
    (ab : List (String × InsAgg) × List (String × InsAgg)) :
    l.foldl insiderStep ab = (l.foldl buyStepCond ab.1, l.foldl sellStepUncond ab.2) := by
  induction l generalizing ab with
  | nil => rfl
  | cons tx l ih =>
    rw [List.foldl_cons, List.foldl_cons, List.foldl_cons]
    exact ih (insiderStep ab tx)

/-- C3 (amended): the self-referential gate on the buy-insider
accumulation is equivalent to requiring a nonzero transaction value when
the insider is already present; on any input whose P records all have
nonzero `|change × price|` the gated accumulation coincides with the
unconditional accumulation used for sell insiders. -/
theorem c3_buy_gate (l : List Tx) (h : ∀ tx ∈ l, tx.code = "P" → txVal tx ≠ 0) :
    (top_insiders l).1 = top_buy_insiders_uncond l := by
  unfold top_insiders top_buy_insiders_uncond
  rw [foldl_insiderStep_proj]
  show List.foldl buyStepCond [] l = List.foldl buyStepUncond [] l
  have main : ∀ (l2 : List Tx) (a : List (String × InsAgg)),
      (∀ tx ∈ l2, tx.code = "P" → txVal tx ≠ 0) →
      List.foldl buyStepCond a l2 = List.foldl buyStepUncond a l2 := by
    intro l2
    induction l2 with
    | nil => intro a _; rfl
    | cons tx l2 ih =>
      intro a h2
      rw [List.foldl_cons, List.foldl_cons]
      have hstep : buyStepCond a tx = buyStepUncond a tx := by
        unfold buyStepCond buyStepUncond
        by_cases hp : tx.code = "P"
        · rw [if_pos hp, if_pos hp]
          have hval : 0 < txVal tx := by
            have h0 := h2 tx (List.mem_cons_self _ _) hp
            have h1 : 0 ≤ txVal tx := abs_nonneg _
            exact lt_of_le_of_ne h1 (Ne.symm h0)
          cases hf : dictFind tx.name a with
          | none => rfl
          | some v =>
            show (if v.total < txVal tx + v.total then
                bumpInsider tx.name tx.sym tx.txDate (txVal tx) a else a) =
              bumpInsider tx.name tx.sym tx.txDate (txVal tx) a
            rw [if_pos ((lt_add_iff_pos_left _).mpr hval)]
        · rw [if_neg hp, if_neg hp]
      rw [hstep]
      exact ih _ (fun t ht hp => h2 t (List.mem_cons_of_mem _ ht) hp)
  exact main l [] h

/-- Counterexample to C3 as stated: the gated buy-insider accumulation is
not the unconditional one — a zero-value purchase by an already-present
insider is skipped (its transaction is missing from the insider's list). -/
theorem c3_buy_gate_cex :
    (top_insiders [c3t1, c3t2]).1 ≠ top_buy_insiders_uncond [c3t1, c3t2] := by
  decide!

/-- Witness for the amended C3 at a concrete input with nonzero values. -/
theorem c3_buy_gate_witness :
    (∀ tx ∈ [c3t1], tx.code = "P" → txVal tx ≠ 0) ∧
    (top_insiders [c3t1]).1 = top_buy_insiders_uncond [c3t1] := by
  refine ⟨by decide!, ?_⟩
  exact c3_buy_gate [c3t1] (by decide!)

theorem pairwise_insertS {α : Type} (le : α → α → Bool)
    (htot : ∀ a b, le a b = true ∨ le b a = true)
    (htrans : ∀ a b c, le a b = true → le b c = true → le a c = true)
    (a : α) (l : List α) (h : l.Pairwise (fun x y => le x y = true)) :
    (insertS le a l).Pairwise (fun x y => le x y = true) := by
  induction l with
  | nil => simp [insertS]
  | cons b l ih =>
    obtain ⟨hb, hl⟩ := List.pairwise_cons.mp h
    unfold insertS
    split
    case isTrue hab =>
      refine List.Pairwise.cons ?_ h
      intro x hx
      rcases List.mem_cons.mp hx with rfl | hx2
      · exact hab
      · exact htrans a b x hab (hb x hx2)
    case isFalse hab =>
      have hba : le b a = true := by
        rcases htot a b with h1 | h1
        · exact absurd h1 hab
        · exact h1
      refine List.Pairwise.cons ?_ (ih hl)
      intro x hx
      rcases (mem_insertS le a x l).mp hx with rfl | hx2
      · exact hba
      · exact hb x hx2

theorem pairwise_sortS {α : Type} (le : α → α → Bool)
    (htot : ∀ a b, le a b = true ∨ le b a = true)
    (htrans : ∀ a b c, le a b = true → le b c = true → le a c = true)
    (l : List α) : (sortS le l).Pairwise (fun x y => le x y = true) := by
  induction l with
  | nil => exact List.Pairwise.nil
  | cons a l ih => exact pairwise_insertS le htot htrans a _ ih

theorem filter_insertS_pos {α : Type} (le : α → α → Bool) (p : α → Bool) (a : α)
    (l : List α) (hp : p a = true) (hcl : ∀ b, p b = true → le a b = true) :
    (insertS le a l).filter p = a :: l.filter p := by
  induction l with
  | nil => simp [insertS, hp]
  | cons b l ih =>
    unfold insertS
    split
    case isTrue hab => rw [List.filter_cons_of_pos hp]
    case isFalse hab =>
      have hpb : p b = false := by
        cases hpb2 : p b with
        | false => rfl
        | true => exact absurd (hcl b hpb2) hab
      rw [List.filter_cons_of_neg (by simp [hpb]), List.filter_cons_of_neg (by simp [hpb])]
      exact ih

theorem filter_insertS_neg {α : Type} (le : α → α → Bool) (p : α → Bool) (a : α)
    (l : List α) (hp : p a = false) :
    (insertS le a l).filter p = l.filter p := by
  induction l with
  | nil => simp [insertS, hp]
  | cons b l ih =>
    unfold insertS
    split
    case isTrue hab =>
      rw [List.filter_cons_of_neg (by simp [hp])]
    case isFalse hab =>
      cases hpb : p b with
      | false =>
        rw [List.filter_cons_of_neg (by simp [hpb]), List.filter_cons_of_neg (by simp [hpb])]
        exact ih
      | true =>
        rw [List.filter_cons_of_pos hpb, List.filter_cons_of_pos hpb, ih]

theorem filter_sortS {α : Type} (le : α → α → Bool) (p : α → Bool)
    (hcl : ∀ a b, p a = true → p b = true → le a b = true) (l : List α) :
    (sortS le l).filter p = l.filter p := by
  induction l with
  | nil => rfl
  | cons a l ih =>
    show (insertS le a (sortS le l)).filter p = (a :: l).filter p
    cases hpa : p a with
    | true =>
      rw [filter_insertS_pos le p a _ hpa (fun b hb => hcl a b hpa hb), ih,
        List.filter_cons_of_pos hpa]
    | false =>
      rw [filter_insertS_neg le p a _ hpa, ih, List.filter_cons_of_neg (by simp [hpa])]

theorem ranking_desc {α : Type} (key : α → ℚ) (gg : List α) :
    (sortS (fun a b => decide (key b ≤ key a)) gg).Pairwise (fun a b => key b ≤ key a) := by
  have h := pairwise_sortS (fun a b => decide (key b ≤ key a))
    (fun a b => by
      rcases le_total (key b) (key a) with h1 | h1
      · exact Or.inl (by simpa using h1)
      · exact Or.inr (by simpa using h1))
    (fun a b c h1 h2 => by
      simp only [decide_eq_true_eq] at h1 h2 ⊢
      exact le_trans h2 h1) gg
  exact h.imp (fun hx => by simpa using hx)

theorem ranking_filter {α : Type} (key : α → ℚ) (gg : List α) (v : ℚ) :
    ∃ t, gg.filter (fun e => key e = v) =
      ((sortS (fun a b => decide (key b ≤ key a)) gg).take 5).filter
        (fun e => key e = v) ++ t := by
  refine ⟨((sortS (fun a b => decide (key b ≤ key a)) gg).drop 5).filter
    (fun e => key e = v), ?_⟩
  rw [← List.filter_append, List.take_append_drop]
  rw [filter_sortS]
  intro a b ha hb
  simp only [decide_eq_true_eq] at ha hb ⊢
  rw [ha, hb]

/-- C4 (amended): each of the four top-5 rankings contains at most 5
entries, is sorted descending (non-strictly: ties are possible) by
aggregate total value, and entries with equal totals appear in the order
of their first encounter (stable sort over the insertion-ordered
aggregation). -/
theorem c4_rankings (u : String) (l : List Tx) :
    ((build_summary u l).topBuyStocks.length ≤ 5 ∧
     (build_summary u l).topSellStocks.length ≤ 5 ∧
     (build_summary u l).topBuyInsiders.length ≤ 5 ∧
     (build_summary u l).topSellInsiders.length ≤ 5) ∧
    ((build_summary u l).topBuyStocks.Pairwise (fun a b => b.2.total ≤ a.2.total) ∧
     (build_summary u l).topSellStocks.Pairwise (fun a b => b.2.total ≤ a.2.total) ∧
     (build_summary u l).topBuyInsiders.Pairwise (fun a b => b.2.total ≤ a.2.total) ∧
     (build_summary u l).topSellInsiders.Pairwise (fun a b => b.2.total ≤ a.2.total)) ∧
    (∀ v : ℚ,
     (∃ t, (top_stocks l).1.filter (fun e => e.2.total = v) =
       (build_summary u l).topBuyStocks.filter (fun e => e.2.total = v) ++ t) ∧
     (∃ t, (top_stocks l).2.filter (fun e => e.2.total = v) =
       (build_summary u l).topSellStocks.filter (fun e => e.2.total = v) ++ t) ∧
     (∃ t, ((top_insiders l).1.map finishInsider).filter (fun e => e.2.total = v) =
       (build_summary u l).topBuyInsiders.filter (fun e => e.2.total = v) ++ t) ∧
     (∃ t, ((top_insiders l).2.map finishInsider).filter (fun e => e.2.total = v) =
       (build_summary u l).topSellInsiders.filter (fun e => e.2.total = v) ++ t)) := by
  refine ⟨⟨?_, ?_, ?_, ?_⟩, ⟨?_, ?_, ?_, ?_⟩, ?_⟩
  · exact List.length_take_le 5 _
  · exact List.length_take_le 5 _
  · exact List.length_take_le 5 _
  · exact List.length_take_le 5 _
  · exact (ranking_desc (fun e => e.2.total) (top_stocks l).1).sublist
      (List.take_sublist 5 _)
  · exact (ranking_desc (fun e => e.2.total) (top_stocks l).2).sublist
      (List.take_sublist 5 _)
  · exact (ranking_desc (fun e => e.2.total) ((top_insiders l).1.map finishInsider)).sublist
      (List.take_sublist 5 _)
  · exact (ranking_desc (fun e => e.2.total) ((top_insiders l).2.map finishInsider)).sublist
      (List.take_sublist 5 _)
  · intro v
    exact ⟨ranking_filter (fun e => e.2.total) _ v, ranking_filter (fun e => e.2.total) _ v,
      ranking_filter (fun e => e.2.total) _ v, ranking_filter (fun e => e.2.total) _ v⟩

/-- Counterexample to C4 as stated: with two tied aggregate totals the
top-buy-stocks ranking is not *strictly* descending by total value. -/
theorem c4_rankings_cex :
    ¬ ((build_summary "" [c4a, c4b]).topBuyStocks.Pairwise
      (fun a b => b.2.total < a.2.total)) := by
  decide!

/-- C6: a transaction whose symbol is not in the Symbol Registry
contributes to no sector rollup (the sector list is unchanged by its
presence), yet it is still counted in the global buy/sell counts and
(pre-rounding) totals; and the sector list is ordered by combined
buy+sell value descending. -/
theorem c6_sector_unregistered (u : String) (l : List Tx) (r : Tx)
    (h : sp500Get r.sym = none) :
    (build_summary u (r :: l)).sectors = (build_summary u l).sectors ∧
    (build_summary u (r :: l)).buyCount =
      (if r.code = "P" then 1 else 0) + (build_summary u l).buyCount ∧
    (build_summary u (r :: l)).sellCount =
      (if r.code = "S" then 1 else 0) + (build_summary u l).sellCount ∧
    buy_val (r :: l) = (if r.code = "P" then txVal r else 0) + buy_val l ∧
    sell_val (r :: l) = (if r.code = "S" then txVal r else 0) + sell_val l ∧
    (build_summary u l).sectors.Pairwise
      (fun a b => b.2.buys + b.2.sells ≤ a.2.buys + a.2.sells) := by
  have hroll : sector_rollup (r :: l) = sector_rollup l := by
    unfold sector_rollup
    rw [List.foldl_cons]
    congr 1
    simp [h]
  refine ⟨?_, ?_, ?_, ?_, ?_, ?_⟩
  · show sortS sectorLe (sector_rollup (r :: l)) = sortS sectorLe (sector_rollup l)
    rw [hroll]
  · show (buys (r :: l)).length = _
    unfold buys
    by_cases hp : r.code = "P"
    · rw [List.filter_cons_of_pos (by simpa using hp), if_pos hp]
      simp [build_summary, buys]
      omega
    · rw [List.filter_cons_of_neg (by simpa using hp), if_neg hp]
      simp [build_summary, buys]
  · show (sells (r :: l)).length = _
    unfold sells
    by_cases hp : r.code = "S"
    · rw [List.filter_cons_of_pos (by simpa using hp), if_pos hp]
      simp [build_summary, sells]
      omega
    · rw [List.filter_cons_of_neg (by simpa using hp), if_neg hp]
      simp [build_summary, sells]
  · unfold buy_val buys
    by_cases hp : r.code = "P"
    · rw [List.filter_cons_of_pos (by simpa using hp), if_pos hp]
      simp
    · rw [List.filter_cons_of_neg (by simpa using hp), if_neg hp]
      simp
  · unfold sell_val sells
    by_cases hp : r.code = "S"
    · rw [List.filter_cons_of_pos (by simpa using hp), if_pos hp]
      simp
    · rw [List.filter_cons_of_neg (by simpa using hp), if_neg hp]
      simp
  · exact ranking_desc (fun e => e.2.buys + e.2.sells) (sector_rollup l)

/-- Witness for C6 at a concrete unregistered symbol. -/
theorem c6_sector_unregistered_witness :
    sp500Get c6r.sym = none ∧
    ((build_summary "" [c6r]).sectors = (build_summary "" []).sectors ∧
     (build_summary "" [c6r]).buyCount =
       (if c6r.code = "P" then 1 else 0) + (build_summary "" []).buyCount ∧
     (build_summary "" [c6r]).sellCount =
       (if c6r.code = "S" then 1 else 0) + (build_summary "" []).sellCount ∧
     buy_val [c6r] = (if c6r.code = "P" then txVal c6r else 0) + buy_val [] ∧
     sell_val [c6r] = (if c6r.code = "S" then txVal c6r else 0) + sell_val [] ∧
     (build_summary "" []).sectors.Pairwise
       (fun a b => b.2.buys + b.2.sells ≤ a.2.buys + a.2.sells)) := by
  refine ⟨by decide!, ?_⟩
  exact c6_sector_unregistered "" [] c6r (by decide!)

/-- C10: a raw record that passes the filter but lacks the optional
name/price/share fields is normalized with the fixed defaults `"Unknown"`,
`0` and `0`; consequently its dollar value `|change × price|` is `0` and
it leaves the summary's buy/sell value aggregates unchanged. -/
theorem txVal_price_zero (t : Tx) (h : t.price = 0) : txVal t = 0 := by
  unfold txVal
  rw [h, mul_zero, abs_zero]

theorem buy_val_cons_zero (t : Tx) (l : List Tx) (h : txVal t = 0) :
    buy_val (t :: l) = buy_val l := by
  unfold buy_val buys
  by_cases hp : t.code = "P"
  · rw [List.filter_cons_of_pos (by simpa using hp), List.map_cons, List.sum_cons,
      h, zero_add]
  · rw [List.filter_cons_of_neg (by simpa using hp)]

theorem sell_val_cons_zero (t : Tx) (l : List Tx) (h : txVal t = 0) :
    sell_val (t :: l) = sell_val l := by
  unfold sell_val sells
  by_cases hp : t.code = "S"
  · rw [List.filter_cons_of_pos (by simpa using hp), List.map_cons, List.sum_cons,
      h, zero_add]
  · rw [List.filter_cons_of_neg (by simpa using hp)]

theorem c10_missing_defaults (u : String) (cutoff : ℚ) (sym : String)
    (raw : RawTx) (n : Tx) (l : List Tx)
    (hname : raw.name = none) (hprice : raw.transactionPrice = none)
    (hshare : raw.share = none) (heq : pass_filter cutoff sym raw = some n) :
    n.name = "Unknown" ∧ n.price = 0 ∧ n.share = 0 ∧ txVal n = 0 ∧
    buy_val (n :: l) = buy_val l ∧ sell_val (n :: l) = sell_val l ∧
    (build_summary u (n :: l)).buyVal = (build_summary u l).buyVal ∧
    (build_summary u (n :: l)).sellVal = (build_summary u l).sellVal := by
  unfold pass_filter at heq
  split at heq
  case isFalse => exact absurd heq (by simp)
  case isTrue hcode =>
    split at heq
    case h_1 => exact absurd heq (by simp)
    case h_2 d hd =>
      split at heq
      case isTrue => exact absurd heq (by simp)
      case isFalse hcut =>
        split at heq
        case h_1 => exact absurd heq (by simp)
        case h_2 c hc =>
          split at heq
          case isTrue => exact absurd heq (by simp)
          case isFalse hz =>
            obtain rfl := Option.some.inj heq
            have h2 : Option.getD raw.transactionPrice 0 = (0 : ℚ) := by
              rw [hprice]
              rfl
            have h4 : txVal {
                sym := sym
                name := raw.name.getD "Unknown"
                code := upperStr (orElseStr raw.transactionCode "")
                change := c
                price := raw.transactionPrice.getD 0
                share := raw.share.getD 0
                txDate := orElseStr raw.transactionDate (orElseStr raw.filingDate "")
                fileDate := raw.filingDate.getD "" } = 0 := txVal_price_zero _ h2
            refine ⟨?_, h2, ?_, h4, buy_val_cons_zero _ l h4, sell_val_cons_zero _ l h4,
              ?_, ?_⟩
            · show Option.getD raw.name "Unknown" = "Unknown"
              rw [hname]
              rfl
            · show Option.getD raw.share 0 = 0
              rw [hshare]
              rfl
            · show round2 (buy_val _) = round2 (buy_val l)
              rw [buy_val_cons_zero _ l h4]
            · show round2 (sell_val _) = round2 (sell_val l)
              rw [sell_val_cons_zero _ l h4]

/-- Witness for C10 at the concrete raw record lacking name, price and
share. -/
theorem c10_missing_defaults_witness :
    (sampleRaw.name = none ∧ sampleRaw.transactionPrice = none ∧
      sampleRaw.share = none ∧
      pass_filter (sampleT - 180) "AAPL" sampleRaw = some sampleTx) ∧
    (sampleTx.name = "Unknown" ∧ sampleTx.price = 0 ∧ sampleTx.share = 0 ∧
      txVal sampleTx = 0 ∧
      buy_val [sampleTx] = buy_val [] ∧ sell_val [sampleTx] = sell_val [] ∧
      (build_summary "" [sampleTx]).buyVal = (build_summary "" []).buyVal ∧
      (build_summary "" [sampleTx]).sellVal = (build_summary "" []).sellVal) := by
  refine ⟨⟨rfl, rfl, rfl, by decide!⟩, ?_⟩
  exact c10_missing_defaults "" (sampleT - 180) "AAPL" sampleRaw sampleTx []
    rfl rfl rfl (by decide!)

theorem api_call_go_net_count {β : Type} (resps : ℕ → Resp β) (url : String) :
    ∀ (rem attempt : ℕ),
      ((api_call_go resps url attempt rem).2.countP isNetEv) ≤ rem := by
  intro rem
  induction rem with
  | zero => intro attempt; simp [api_call_go]
  | succ rem ih =>
    intro attempt
    unfold api_call_go
    cases resps attempt with
    | net_err =>
      simp only [List.countP_cons]
      have := ih (attempt + 1)
      simp [isNetEv]
      omega
    | http s b =>
      dsimp only
      by_cases h429 : s = 429
      · rw [if_pos h429]
        simp only [List.countP_cons]
        have := ih (attempt + 1)
        simp [isNetEv]
        omega
      · rw [if_neg h429]
        by_cases h403 : s = 403
        · rw [if_pos h403]
          simp only [List.countP_cons]
          have := ih (attempt + 1)
          simp [isNetEv]
          omega
        · rw [if_neg h403]
          by_cases h400 : 400 ≤ s
          · rw [if_pos h400]
            simp only [List.countP_cons]
            have := ih (attempt + 1)
            simp [isNetEv]
            omega
          · rw [if_neg h400]
            simp [isNetEv]

theorem api_call_go_retry_step {β : Type} (resps : ℕ → Resp β) (url : String)
    (attempt rem : ℕ) (h : retryable (resps attempt) = true) :
    api_call_go resps url attempt (rem + 1) =
      ((api_call_go resps url (attempt + 1) rem).1,
        Ev.net url :: Ev.sleep (backoff (resps attempt) attempt) ::
          (api_call_go resps url (attempt + 1) rem).2) := by
  simp only [api_call_go]
  cases hr : resps attempt with
  | net_err => rfl
  | http s b =>
    rw [hr] at h
    unfold retryable at h
    simp only [Bool.or_eq_true, decide_eq_true_eq] at h
    unfold backoff
    dsimp only
    by_cases h429 : s = 429
    · rw [if_pos h429, if_pos h429]
    · rw [if_neg h429, if_neg h429]
      by_cases h403 : s = 403
      · rw [if_pos h403, if_pos h403]
      · rw [if_neg h403, if_neg h403]
        have h400 : 400 ≤ s := by tauto
        rw [if_pos h400]

theorem api_call_go_success {β : Type} (resps : ℕ → Resp β) (url : String)
    (attempt rem : ℕ) (s : ℕ) (b : β) (hr : resps attempt = Resp.http s b)
    (hs : s < 400) :
    api_call_go resps url attempt (rem + 1) = (some b, [Ev.net url]) := by
  simp only [api_call_go]
  rw [hr]
  dsimp only
  rw [if_neg (by omega), if_neg (by omega), if_neg (by omega)]

theorem api_call_go_exhaust {β : Type} (resps : ℕ → Resp β) (url : String) :
    ∀ (rem attempt : ℕ), (∀ j, attempt ≤ j → j < attempt + rem →
      retryable (resps j) = true) →
    api_call_go resps url attempt rem =
      (none, (List.range' attempt rem).foldr
        (fun i acc => Ev.net url :: Ev.sleep (backoff (resps i) i) :: acc) []) := by
  intro rem
  induction rem with
  | zero => intro attempt _; rfl
  | succ rem ih =>
    intro attempt h
    rw [api_call_go_retry_step resps url attempt rem
      (h attempt (le_refl _) (by omega))]
    rw [ih (attempt + 1) (fun j h1 h2 => h j (by omega) (by omega))]
    rw [List.range'_succ]
    rfl

theorem api_call_go_success_after {β : Type} (resps : ℕ → Resp β) (url : String) :
    ∀ (i : ℕ), ∀ (rem attempt s : ℕ) (b : β), i < rem →
      (∀ j, attempt ≤ j → j < attempt + i → retryable (resps j) = true) →
      resps (attempt + i) = Resp.http s b → s < 400 →
      api_call_go resps url attempt rem =
        (some b, (List.range' attempt i).foldr
          (fun j acc => Ev.net url :: Ev.sleep (backoff (resps j) j) :: acc)
          [Ev.net url]) := by
  intro i
  induction i with
  | zero =>
    intro rem attempt s b hrem h hr hs
    obtain ⟨rem2, rfl⟩ : ∃ rem2, rem = rem2 + 1 := ⟨rem - 1, by omega⟩
    rw [api_call_go_success resps url attempt rem2 s b (by simpa using hr) hs]
    rfl
  | succ i ih =>
    intro rem attempt s b hrem h hr hs
    obtain ⟨rem2, rfl⟩ : ∃ rem2, rem = rem2 + 1 := ⟨rem - 1, by omega⟩
    rw [api_call_go_retry_step resps url attempt rem2
      (h attempt (le_refl _) (by omega))]
    rw [ih rem2 (attempt + 1) s b (by omega)
      (fun j h1 h2 => h j (by omega) (by omega))
      (by rw [show attempt + 1 + i = attempt + (i + 1) by omega]; exact hr) hs]
    rw [List.range'_succ]
    rfl

/-- C9: `api_call` issues at most `retries` request attempts; if the
first non-retryable response is a 2xx at attempt `i` it returns that
response's parsed body after exactly `i + 1` requests, having slept
`30·(attempt number)` after each 429, 60 after each 403 and 5 after any
other failure; after `retries` retryable responses it returns `None`. -/
theorem c9_api_retry {β : Type} (resps : ℕ → Resp β) (url : String) (retries : ℕ) :
    ((api_call resps url retries).2.countP isNetEv ≤ retries) ∧
    (∀ i s b, i < retries → (∀ j, j < i → retryable (resps j) = true) →
      resps i = Resp.http s b → 200 ≤ s → s < 300 →
      api_call resps url retries =
        (some b, (List.range' 0 i).foldr
          (fun j acc => Ev.net url :: Ev.sleep (backoff (resps j) j) :: acc)
          [Ev.net url])) ∧
    ((∀ j, j < retries → retryable (resps j) = true) →
      api_call resps url retries =
        (none, (List.range' 0 retries).foldr
          (fun j acc => Ev.net url :: Ev.sleep (backoff (resps j) j) :: acc) [])) := by
  refine ⟨api_call_go_net_count resps url retries 0, ?_, ?_⟩
  · intro i s b hi hretry hr h2 h3
    exact api_call_go_success_after resps url i retries 0 s b hi
      (fun j h1 h4 => hretry j (by omega)) (by simpa using hr) (by omega)
  · intro h
    exact api_call_go_exhaust resps url retries 0 (fun j h1 h2 => h j (by omega))

/-- Witness for C9: a rate-limited then successful call returns the body
after 2 attempts with a 30-second backoff; an always-failing call
performs exactly 3 attempts with 5-second waits and returns nothing. -/
theorem c9_api_retry_witness :
    ((api_call c9oA "u" 3).2.countP isNetEv ≤ 3) ∧
    (api_call c9oA "u" 3 =
      (some 7, (List.range' 0 1).foldr
        (fun j acc => Ev.net "u" :: Ev.sleep (backoff (c9oA j) j) :: acc)
        [Ev.net "u"])) ∧
    (api_call c9oB "u" 3 =
      (none, (List.range' 0 3).foldr
        (fun j acc => Ev.net "u" :: Ev.sleep (backoff (c9oB j) j) :: acc) [])) := by
  refine ⟨(c9_api_retry c9oA "u" 3).1, ?_, ?_⟩
  · exact (c9_api_retry c9oA "u" 3).2.1 1 200 7 (by omega) (by decide!)
      (by decide!) (by omega) (by omega)
  · exact (c9_api_retry c9oB "u" 3).2.2 (by decide!)

theorem api_call_go_no_config {β : Type} (resps : ℕ → Resp β) (url : String) :
    ∀ (rem attempt : ℕ), Ev.configError ∉ (api_call_go resps url attempt rem).2 := by
  intro rem
  induction rem with
  | zero => intro attempt; simp [api_call_go]
  | succ rem ih =>
    intro attempt
    simp only [api_call_go]
    cases resps attempt with
    | net_err =>
      dsimp only
      simp [ih]
    | http s b =>
      dsimp only
      by_cases h429 : s = 429
      · simp [h429, ih]
      · by_cases h403 : s = 403
        · simp [h429, h403, ih]
        · by_cases h400 : 400 ≤ s
          · simp [h429, h403, h400, ih]
          · simp [h429, h403, h400]

theorem fetch_fold_no_config (t : ℚ) (key : String)
    (resps : String → ℕ → Resp (Option (List RawTx))) :
    ∀ (syms : List String) (acc : List Tx × List Ev),
      Ev.configError ∉ acc.2 →
      Ev.configError ∉ (syms.foldl (fetchStep t key resps) acc).2 := by
  intro syms
  induction syms with
  | nil => intro acc h; exact h
  | cons sym syms ih =>
    intro acc h
    rw [List.foldl_cons]
    refine ih _ ?_
    show Ev.configError ∉ (fetchStep t key resps acc sym).2
    unfold fetchStep
    dsimp only
    intro hmem
    rcases List.mem_append.mp hmem with hmem2 | hmem2
    · rcases List.mem_append.mp hmem2 with hmem3 | hmem3
      · exact h hmem3
      · exact api_call_go_no_config _ _ 3 0 hmem3
    · simp at hmem2
  

theorem fetch_candles_no_config (yf : String → Option Unit) :
    ∀ (syms : List String) (acc : List Ev),
      Ev.configError ∉ acc →
      Ev.configError ∉ syms.foldl
        (fun acc2 sym =>
          acc2 ++ Ev.net ("yf:" ++ sym) ::
            ((match yf sym with
              | some _ => [Ev.write ("data/candles/" ++ sym ++ ".json")]
              | none => []) ++ [Ev.sleep (3 / 10)]))
        acc := by
  intro syms
  induction syms with
  | nil => intro acc h; exact h
  | cons sym syms ih =>
    intro acc h
    rw [List.foldl_cons]
    refine ih _ ?_
    intro hmem
    rcases List.mem_append.mp hmem with hmem2 | hmem2
    · exact h hmem2
    · rcases List.mem_cons.mp hmem2 with hmem3 | hmem3
      · exact absurd hmem3 (by simp)
      · rcases List.mem_append.mp hmem3 with hmem4 | hmem4
        · cases hyf : yf sym with
          | some v => rw [hyf] at hmem4; simp at hmem4
          | none => rw [hyf] at hmem4; simp at hmem4
        · simp at hmem4

/-- C8: with an unset or empty API key, `main` reports the configuration
error and stops before any directory creation, network request or
artifact write; with a nonempty key no configuration check aborts the
run (the error report never occurs in the trace). -/
theorem fetch_insider_trace_eq (t : ℚ) (key : String)
    (resps : String → ℕ → Resp (Option (List RawTx))) :
    (fetch_insider_transactions t key resps).2 =
      ((SP500.map (fun e => e.1)).foldl (fetchStep t key resps) ([], [])).2 := rfl

set_option maxHeartbeats 1000000 in
theorem c8_config_guard (t : ℚ) (key : String)
    (resps : String → ℕ → Resp (Option (List RawTx)))
    (yf : String → Option Unit) :
    (key = "" → main_run t key resps yf = [Ev.configError]) ∧
    (key ≠ "" → Ev.configError ∉ main_run t key resps yf) := by
  constructor
  · intro h
    unfold main_run
    rw [if_pos h]
  · intro h
    unfold main_run
    rw [if_neg h]
    intro hmem
    rcases List.mem_cons.mp hmem with h1 | h1
    · exact absurd h1 (by simp)
    rcases List.mem_cons.mp h1 with h2 | h2
    · exact absurd h2 (by simp)
    rcases List.mem_append.mp h2 with h3 | h3
    · rw [fetch_insider_trace_eq] at h3
      have hnil : Ev.configError ∉ (([] : List Tx), ([] : List Ev)).2 := by simp
      have hfc := fetch_fold_no_config t key resps (SP500.map (fun e => e.1))
        ([], []) hnil
      exact hfc h3
    rcases List.mem_cons.mp h3 with h4 | h4
    · exact absurd h4 (by simp)
    rcases List.mem_cons.mp h4 with h5 | h5
    · exact absurd h5 (by simp)
    · have hnil2 : Ev.configError ∉ ([] : List Ev) := by simp
      have hcc := fetch_candles_no_config yf
        (active_symbols (fetch_insider_transactions t key resps).1) [] hnil2
      exact hcc h5

/-- Witness for C8: with the empty key the whole trace is the single
error report; with a nonempty key the error report does not occur. -/
theorem c8_config_guard_witness :
    main_run 0 "" c8resps c8yf = [Ev.configError] ∧
    Ev.configError ∉ main_run 0 "k" c8resps c8yf := by
  constructor
  · exact (c8_config_guard 0 "" c8resps c8yf).1 rfl
  · exact (c8_config_guard 0 "k" c8resps c8yf).2 (by decide!)
